import Mathlib

/-!
Verification of the cloudcompute/workflow durable workflow engine.

The development shallowly embeds:
* the event-sourced run/step lifecycle core (the "World" contract) —
  modelled from the spec, since only its changeset notes ship in this
  snapshot of the repository;
* `packages/world-vercel/src/events.ts` (event creation/listing,
  `filterEventData`, the `eventsNeedingResolve` allow-list);
* `packages/world-local` telemetry (`trace`, `instrumentObject`);
* the esbuild discovery plugin's `parentHasChild` import-graph search.
-/

namespace WorldModel

/-- Event types of the append-only log (spec §3, "Event"). -/
inductive EventType
  | run_created | run_started | run_cancelled
  | step_started | step_completed | step_failed | step_skipped
  | hook_created | hook_resolved | wait_created | wait_resolved
  deriving DecidableEq

/-- Modelled from the spec: an event of a run's append-only log (§3).
Only the fields the lifecycle transitions consume are kept: the event
type, the id of the step/hook/wait the event concerns, and the
`retryAfter` / `maxRetries` payload carried by step events. -/
structure Event where
  eventType : EventType
  stepId : Option String := none
  hookId : Option String := none
  waitId : Option String := none
  retryAfter : Option Nat := none
  maxRetries : Option Nat := none
  deriving DecidableEq

/-- Step statuses (spec §3, "Step"). -/
inductive StepStatus
  | pending | running | succeeded | failed | retry_scheduled | skipped
  deriving DecidableEq

/-- Modelled from the spec: the Step record (§3). `attempt` starts at 0
before the first `step_started` event and is advanced only by accepted
`step_started` events. -/
structure Step where
  stepId : String
  attempt : Nat
  maxRetries : Nat
  status : StepStatus
  retryAfter : Option Nat
  deriving DecidableEq

/-- Run statuses (spec §3, "WorkflowRun"). -/
inductive RunStatus
  | pending | running | suspended | completed | failed | cancelled
  deriving DecidableEq

/-- Modelled from the spec: the state derived for one run by replaying
its event log (§4.4): run status, the steps keyed by `stepId`, and the
hooks/waits keyed by their ids with a resolved flag. -/
structure RunState where
  runStatus : RunStatus
  steps : List (String × Step)
  hooks : List (String × Bool)
  waits : List (String × Bool)
  deriving DecidableEq

/-- Modelled from the spec: the state before any event was appended. -/
def initialState : RunState :=
  { runStatus := .pending, steps := [], hooks := [], waits := [] }

/-- Fresh step record inserted when the first event for a `stepId`
arrives; `attempt` is 0 until a `step_started` event advances it. -/
def freshStep (sid : String) (mr : Nat) : Step :=
  { stepId := sid, attempt := 0, maxRetries := mr
    status := .pending, retryAfter := none }

/-- Write (insert or overwrite) the step bound to `sid`. -/
def setStep (steps : List (String × Step)) (sid : String) (st : Step) :
    List (String × Step) :=
  match steps with
  | [] => [(sid, st)]
  | (k, v) :: rest =>
    if k = sid then (k, st) :: rest else (k, v) :: setStep rest sid st

/-- Apply `f` to the step bound to `sid` when one exists. -/
def adjustStep (steps : List (String × Step)) (sid : String)
    (f : Step → Step) : List (String × Step) :=
  match steps.lookup sid with
  | none => steps
  | some st => setStep steps sid (f st)

/-- Mark the flag bound to `k` (hooks/waits) as resolved. -/
def resolveFlag (xs : List (String × Bool)) (k : String) :
    List (String × Bool) :=
  xs.map fun kv => if kv.1 = k then (kv.1, true) else kv

/-- Modelled from the spec: the pure per-event-type transition function
replay folds over the ordered event log (§4.4 "each event type has a
pure transition function"; §4.3 for the step transitions). -/
def applyEvent (s : RunState) (e : Event) : RunState :=
  match e.eventType with
  | .run_created => { s with runStatus := .pending }
  | .run_started => { s with runStatus := .running }
  | .run_cancelled => { s with runStatus := .cancelled }
  | .step_started =>
    match e.stepId with
    | none => s
    | some sid =>
      let cur := (s.steps.lookup sid).getD (freshStep sid (e.maxRetries.getD 0))
      let cur' := { cur with
        attempt := cur.attempt + 1
        status := StepStatus.running
        retryAfter := none }
      { s with steps := setStep s.steps sid cur' }
  | .step_completed =>
    match e.stepId with
    | none => s
    | some sid =>
      let steps' := adjustStep s.steps sid (fun st => { st with status := .succeeded })
      { s with steps := steps' }
  | .step_failed =>
    match e.stepId with
    | none => s
    | some sid =>
      let steps' := adjustStep s.steps sid (fun st =>
        if st.maxRetries < st.attempt then { st with status := .failed }
        else { st with status := .retry_scheduled, retryAfter := e.retryAfter })
      { s with steps := steps' }
  | .step_skipped =>
    match e.stepId with
    | none => s
    | some sid =>
      let steps' := adjustStep s.steps sid (fun st => { st with status := .skipped })
      { s with steps := steps' }
  | .hook_created =>
    match e.hookId with
    | none => s
    | some hid => { s with hooks := s.hooks ++ [(hid, false)] }
  | .hook_resolved =>
    match e.hookId with
    | none => s
    | some hid => { s with hooks := resolveFlag s.hooks hid }
  | .wait_created =>
    match e.waitId with
    | none => s
    | some wid => { s with waits := s.waits ++ [(wid, false)] }
  | .wait_resolved =>
    match e.waitId with
    | none => s
    | some wid => { s with waits := resolveFlag s.waits wid }

/-- Modelled from the spec: replay derives a run's state by folding the
ordered event log from the initial state (§4.4). -/
def replay (E : List Event) : RunState :=
  E.foldl applyEvent initialState

/-- Current attempt number of step `sid` in a derived state (0 when the
step has not appeared yet). -/
def stepAttempt (s : RunState) (sid : String) : Nat :=
  ((s.steps.lookup sid).map Step.attempt).getD 0

/-- Number of `step_started` events durably appended for `sid`. -/
def countStarted (E : List Event) (sid : String) : Nat :=
  (E.filter fun e =>
    e.eventType = EventType.step_started && e.stepId = some sid).length

/-- Modelled from the spec: the race-condition fix of the changeset —
a worker first appends the `step_started` event for the new attempt,
awaits its acknowledgement, and only then reads derived state to
hydrate arguments. `workerHydrationView` is the attempt number the
hydration step observes. -/
def workerHydrationView (E : List Event) (sid : String) : Nat :=
  stepAttempt (replay (E ++ [{ eventType := .step_started, stepId := some sid }])) sid

lemma lookup_setStep_self (steps : List (String × Step)) (sid : String) (st : Step) :
    (setStep steps sid st).lookup sid = some st := by
  induction steps with
  | nil => simp [setStep, List.lookup]
  | cons kv rest ih =>
    rcases kv with ⟨k, v⟩
    by_cases h : k = sid
    · subst h
      simp [setStep, List.lookup]
    · have hb : (sid == k) = false := by
        simp only [beq_eq_false_iff_ne, ne_eq]
        exact Ne.symm h
      simp [setStep, h, List.lookup, hb, ih]

lemma lookup_setStep_other (steps : List (String × Step)) (sid k : String) (st : Step)
    (h : k ≠ sid) : (setStep steps sid st).lookup k = steps.lookup k := by
  have hb : (k == sid) = false := by
    simp only [beq_eq_false_iff_ne, ne_eq]
    exact h
  induction steps with
  | nil => simp [setStep, List.lookup, hb]
  | cons kv rest ih =>
    rcases kv with ⟨k', v⟩
    by_cases hk : k' = sid
    · subst hk
      simp [setStep, List.lookup, hb]
    · simp [setStep, hk, List.lookup, ih]

lemma lookup_adjustStep_attempt (steps : List (String × Step)) (sid' : String)
    (f : Step → Step) (sid : String) (hf : ∀ st, (f st).attempt = st.attempt) :
    ((adjustStep steps sid' f).lookup sid).map Step.attempt =
      (steps.lookup sid).map Step.attempt := by
  unfold adjustStep
  cases hl : steps.lookup sid' with
  | none => rfl
  | some st =>
    by_cases h : sid = sid'
    · subst h
      rw [lookup_setStep_self, hl]
      simp [hf]
    · rw [lookup_setStep_other _ _ _ _ h]

/-- Marker for events that advance the attempt counter of `sid`. -/
def isStartedFor (e : Event) (sid : String) : Bool :=
  e.eventType = EventType.step_started && e.stepId = some sid

lemma stepAttempt_applyEvent (s : RunState) (e : Event) (sid : String) :
    stepAttempt (applyEvent s e) sid =
      stepAttempt s sid + (if isStartedFor e sid then 1 else 0) := by
  rcases e with ⟨et, stepid, hookid, waitid, ra, mr⟩
  cases et with
  | step_started =>
    cases stepid with
    | none => simp [applyEvent, isStartedFor, stepAttempt]
    | some sid' =>
      by_cases h : sid' = sid
      · subst h
        simp only [applyEvent, isStartedFor, stepAttempt]
        rw [lookup_setStep_self]
        cases hl : s.steps.lookup sid' <;> simp [hl, freshStep]
      · simp only [applyEvent, isStartedFor, stepAttempt]
        rw [lookup_setStep_other _ _ _ _ (Ne.symm h)]
        simp [h]
  | step_completed =>
    cases stepid with
    | none => simp [applyEvent, isStartedFor, stepAttempt]
    | some sid' =>
      simp only [applyEvent, isStartedFor, stepAttempt]
      rw [lookup_adjustStep_attempt s.steps sid'
        (fun st => { st with status := .succeeded }) sid (fun st => rfl)]
      simp
  | step_failed =>
    cases stepid with
    | none => simp [applyEvent, isStartedFor, stepAttempt]
    | some sid' =>
      simp only [applyEvent, isStartedFor, stepAttempt]
      rw [lookup_adjustStep_attempt s.steps sid'
        (fun st =>
          if st.maxRetries < st.attempt then { st with status := .failed }
          else { st with status := .retry_scheduled, retryAfter := ra }) sid
        (fun st => by by_cases h : st.maxRetries < st.attempt <;> simp [h])]
      simp
  | step_skipped =>
    cases stepid with
    | none => simp [applyEvent, isStartedFor, stepAttempt]
    | some sid' =>
      simp only [applyEvent, isStartedFor, stepAttempt]
      rw [lookup_adjustStep_attempt s.steps sid'
        (fun st => { st with status := .skipped }) sid (fun st => rfl)]
      simp
  | run_created => simp [applyEvent, isStartedFor, stepAttempt]
  | run_started => simp [applyEvent, isStartedFor, stepAttempt]
  | run_cancelled => simp [applyEvent, isStartedFor, stepAttempt]
  | hook_created => cases hookid <;> simp [applyEvent, isStartedFor, stepAttempt]
  | hook_resolved => cases hookid <;> simp [applyEvent, isStartedFor, stepAttempt]
  | wait_created => cases waitid <;> simp [applyEvent, isStartedFor, stepAttempt]
  | wait_resolved => cases waitid <;> simp [applyEvent, isStartedFor, stepAttempt]

lemma countStarted_cons (e : Event) (E : List Event) (sid : String) :
    countStarted (e :: E) sid =
      (if isStartedFor e sid then 1 else 0) + countStarted E sid := by
  simp only [countStarted, isStartedFor, List.filter_cons]
  by_cases h : (decide (e.eventType = EventType.step_started) &&
      decide (e.stepId = some sid)) = true
  · simp only [h, if_true, List.length_cons]
    omega
  · simp only [h, if_false]
    simp only [Bool.not_eq_true] at h
    simp [h]

lemma stepAttempt_foldl (E : List Event) (s : RunState) (sid : String) :
    stepAttempt (E.foldl applyEvent s) sid = stepAttempt s sid + countStarted E sid := by
  induction E generalizing s with
  | nil => simp [countStarted]
  | cons e E ih =>
    rw [List.foldl_cons, ih, stepAttempt_applyEvent, countStarted_cons]
    omega

lemma stepAttempt_replay (E : List Event) (sid : String) :
    stepAttempt (replay E) sid = countStarted E sid := by
  rw [replay, stepAttempt_foldl]
  simp [stepAttempt, initialState]

lemma countStarted_append_started (E : List Event) (sid : String) :
    countStarted (E ++ [{ eventType := .step_started, stepId := some sid }]) sid =
      countStarted E sid + 1 := by
  simp [countStarted, List.filter_append]

/-- Failure modes of the World contract (spec §4.1 / §7), together with
the `Gone` code the changeset removed in favour of `Conflict`. -/
inductive WorldError
  | NotFound | Conflict | TooEarly | Invalid | Gone
  deriving DecidableEq

/-- HTTP status equivalent of each failure mode (spec §4.1, §6). -/
def httpStatus : WorldError → Nat
  | .NotFound => 404
  | .Conflict => 409
  | .TooEarly => 425
  | .Invalid => 400
  | .Gone => 410

/-- Modelled from the spec: the conditional `steps.update` of the World
contract (§4.1) — fails with `Conflict` when the step's current status
does not match `expectedStatus`, otherwise applies the status patch. -/
def stepsUpdate (s : Step) (expectedStatus : StepStatus) (patch : StepStatus) :
    Except WorldError Step :=
  if s.status = expectedStatus then .ok { s with status := patch }
  else .error .Conflict

/-- Terminal step states: succeeded, or failed with retries exhausted
(in the derived state a step is `failed` only once retries are
exhausted; otherwise `step_failed` leaves it `retry_scheduled`). -/
def isTerminalStep (s : Step) : Bool :=
  s.status = StepStatus.succeeded || s.status = StepStatus.failed

/-- Modelled from the spec: server-side validation performed before a
step invocation is executed (§4.3 items 5-6, changeset "server-side
retryAfter validation" and "return 409 instead of 410"): a terminal
step is rejected with `Conflict`; a step whose `retryAfter` lies in the
future is rejected with `TooEarly`; otherwise the invocation proceeds. -/
def validateInvoke (s : Step) (now : Nat) : Except WorldError Unit :=
  if isTerminalStep s then .error .Conflict
  else
    match s.retryAfter with
    | some t => if now < t then .error .TooEarly else .ok ()
    | none => .ok ()

/-- Modelled from the spec: replay as a relation between an ordered
event log and a derived state, each event applied by its pure
transition function (§4.4). The determinism theorem shows this
relation is functional: derived state is a pure function of the log. -/
inductive Replay : List Event → RunState → Prop
  | nil : Replay [] initialState
  | snoc {E : List Event} {s : RunState} (e : Event) :
      Replay E s → Replay (E ++ [e]) (applyEvent s e)

lemma replay_snoc_inv {E : List Event} {e : Event} {s : RunState}
    (h : Replay (E ++ [e]) s) :
    ∃ s', Replay E s' ∧ s = applyEvent s' e := by
  generalize hL : E ++ [e] = L at h
  cases h with
  | nil => simp at hL
  | snoc e' h' =>
    obtain ⟨h1, h2⟩ := List.append_inj' hL (by simp)
    obtain rfl := h1
    obtain rfl : e' = e := by simpa using h2.symm
    exact ⟨_, h', rfl⟩

lemma replay_functional {E : List Event} {s₁ s₂ : RunState}
    (h₁ : Replay E s₁) (h₂ : Replay E s₂) : s₁ = s₂ := by
  induction h₁ generalizing s₂ with
  | nil =>
    generalize hL : ([] : List Event) = L at h₂
    cases h₂ with
    | nil => rfl
    | snoc e h' => simp at hL
  | snoc e h' ih =>
    obtain ⟨s', hs', rfl⟩ := replay_snoc_inv h₂
    rw [ih hs']

end WorldModel

namespace HydrationCodec

/-- Modelled from the spec: the storable form of a value — either the
value inlined, or a reference into the out-of-band blob store (§4.2). -/
inductive StoredValue (α : Type)
  | inline (v : α)
  | ref (r : Nat)
  deriving DecidableEq

/-- Modelled from the spec: dehydration (§4.2) — when the serialized
size of a value exceeds the threshold, the value is appended to the
blob store and only its reference is persisted; otherwise the value is
inlined. Returns the stored form and the updated blob store. -/
def dehydrate {α : Type} (size : α → Nat) (threshold : Nat)
    (store : List α) (v : α) : StoredValue α × List α :=
  if threshold < size v then (.ref store.length, store ++ [v])
  else (.inline v, store)

/-- Modelled from the spec: hydration (§4.2) — reconstructs the value
from its stored form, resolving blob-store references. -/
def hydrate {α : Type} (store : List α) : StoredValue α → Option α
  | .inline v => some v
  | .ref r => store[r]?

lemma hydrate_dehydrate {α : Type} (size : α → Nat) (threshold : Nat)
    (store : List α) (v : α) :
    hydrate (dehydrate size threshold store v).2
      (dehydrate size threshold store v).1 = some v := by
  unfold dehydrate hydrate
  by_cases h : threshold < size v
  · simp [h]
  · simp [h]

end HydrationCodec

/-- JSON-like runtime values of the TypeScript embedding. -/
inductive JValue
  | jnull
  | jbool (b : Bool)
  | jnum (n : Int)
  | jstr (s : String)
  | jarr (xs : List JValue)
  | jobj (fields : List (String × JValue))

namespace EventsApi

/-- The `resolveData` option: `'none' | 'all'`. -/
inductive ResolveData
  | nothing | all
  deriving DecidableEq

/-- The `remoteRefBehavior` requested from storage: `'resolve' | 'lazy'`. -/
inductive RemoteRefBehavior
  | resolve | lazy
  deriving DecidableEq

/-- Wire/interface form of an Event as handled by `events.ts`; the
optional `eventData` field models presence/absence of the JSON key. -/
structure EventObj where
  eventId : String
  runId : String
  eventType : String
  correlationId : Option String
  eventData : Option JValue
  eventDataRef : Option JValue
  createdAt : Nat
  specVersion : Nat

/-- Embeds `filterEventData` (events.ts:23-29): on `resolveData: 'none'`
the `eventData` key is dropped and the remaining fields returned
unchanged. -/
def filterEventData (event : EventObj) (resolveData : ResolveData) : EventObj :=
  if resolveData = ResolveData.nothing then { event with eventData := none }
  else event

/-- Embeds `eventsNeedingResolve` (events.ts:56-60): event types whose
response entity data the client reads, which therefore always force
`'resolve'`. -/
def eventsNeedingResolve : List String :=
  ["run_created", "run_started", "step_started"]

/-- Pagination options of `ListEventsParams`. -/
structure Pagination where
  limit : Option Nat := none
  cursor : Option String := none
  sortOrder : Option String := none
  deriving DecidableEq

/-- Which identifier the caller supplied (`'runId' in params` selects
the first form at runtime). -/
inductive EventsTarget
  | byRun (runId : String)
  | byCorrelation (correlationId : String)
  deriving DecidableEq

/-- Parameters of `getWorkflowRunEvents`. -/
structure ListEventsParamsM where
  target : EventsTarget
  pagination : Option Pagination := none
  resolveData : Option ResolveData := none
  deriving DecidableEq

/-- The storage GET request `getWorkflowRunEvents` issues: endpoint and
query parameters. -/
structure ListRequest where
  endpoint : String
  limit : Option Nat
  cursor : Option String
  sortOrder : Option String
  correlationId : Option String
  remoteRefBehavior : RemoteRefBehavior
  deriving DecidableEq

/-- JavaScript truthiness for an optional string: `undefined`/`null`
and the empty string are falsy. -/
def strTruthy : Option String → Bool
  | none => false
  | some s => !(s == "")

/-- Embeds `getWorkflowRunEvents` (events.ts:63-111). The storage
round-trip is abstracted by `wire`, the page of events the backend
would return; the function either throws (returns `.error`) before any
request is issued, or returns the request it issues together with the
page mapped through `filterEventData`. -/
def getWorkflowRunEvents (defaultRD : ResolveData) (params : ListEventsParamsM)
    (wire : List EventObj) : Except String (ListRequest × List EventObj) :=
  let resolveData := params.resolveData.getD defaultRD
  let runId : Option String :=
    match params.target with
    | .byRun r => some r
    | .byCorrelation _ => none
  let correlationId : Option String :=
    match params.target with
    | .byRun _ => none
    | .byCorrelation c => some c
  if !strTruthy runId && !strTruthy correlationId then
    .error "Either runId or correlationId must be provided"
  else
    let remoteRefBehavior :=
      if resolveData = ResolveData.nothing then RemoteRefBehavior.lazy
      else RemoteRefBehavior.resolve
    let endpoint :=
      if strTruthy correlationId then "/v2/events"
      else "/v2/runs/" ++ runId.getD "" ++ "/events"
    let req : ListRequest :=
      { endpoint := endpoint
        limit := params.pagination.bind Pagination.limit
        cursor := params.pagination.bind Pagination.cursor
        sortOrder := params.pagination.bind Pagination.sortOrder
        correlationId := if strTruthy correlationId then correlationId else none
        remoteRefBehavior := remoteRefBehavior }
    .ok (req, wire.map (fun e => filterEventData e resolveData))

/-- Request body/parameters of `events.create`. -/
structure AnyEventRequest where
  eventType : String
  eventData : Option JValue := none

/-- Optional parameters of `createWorkflowRunEvent`. -/
structure CreateEventParams where
  resolveData : Option ResolveData := none
  v1Compat : Option Bool := none
  deriving DecidableEq

/-- Wire-format response of the v2 `events.create` endpoint. -/
structure EventResultWire where
  event : EventObj
  run : Option JValue := none
  step : Option JValue := none
  hook : Option JValue := none

/-- The `EventResult` returned to the caller. -/
structure EventResultM where
  event : Option EventObj
  run : Option JValue
  step : Option JValue
  hook : Option JValue

/-- Observable outcome of `createWorkflowRunEvent`: which endpoint was
called with which `remoteRefBehavior`, and the result returned. -/
inductive CreateOutcome
  | v1CancelRun (runId : String)
  | v1CreateRun
  | v1Event (endpoint : String)
  | v2 (endpoint : String) (remoteRefBehavior : RemoteRefBehavior) (result : EventResultM)

/-- Embeds `createWorkflowRunEvent` (events.ts:113-163). The storage
round-trip is abstracted by `wire`, the response the backend would
return for the issued request. -/
def createWorkflowRunEvent (defaultRD : ResolveData) (id : Option String)
    (data : AnyEventRequest) (params : CreateEventParams)
    (wire : EventResultWire) : CreateOutcome :=
  let resolveData := params.resolveData.getD defaultRD
  let v1Compat := params.v1Compat.getD false
  if v1Compat then
    if data.eventType = "run_cancelled" && strTruthy id then
      .v1CancelRun (id.getD "")
    else if data.eventType = "run_created" then
      .v1CreateRun
    else
      .v1Event ("/v1/runs/" ++ id.getD "" ++ "/events")
  else
    let runIdPath := match id with | none => "null" | some i => i
    let remoteRefBehavior :=
      if data.eventType ∈ eventsNeedingResolve then RemoteRefBehavior.resolve
      else RemoteRefBehavior.lazy
    let res : EventResultM :=
      { event := some (filterEventData wire.event resolveData)
        run := wire.run
        step := wire.step
        hook := wire.hook }
    .v2 ("/v2/runs/" ++ runIdPath ++ "/events") remoteRefBehavior res

/-- The `EventResult` assembled from a v2 wire response under a given
effective `resolveData` (used to state properties of the v2 path). -/
def mkResult (wire : EventResultWire) (rd : ResolveData) : EventResultM :=
  { event := some (filterEventData wire.event rd)
    run := wire.run
    step := wire.step
    hook := wire.hook }

end EventsApi

namespace Telemetry

/-- Result of an async method: a resolved value or a thrown error (the
error carries the thrown message). -/
abbrev MethodResult := Except String JValue

/-- Span status codes of the OpenTelemetry API. -/
inductive SpanStatusCode
  | OK | ERROR
  deriving DecidableEq

/-- In-memory record of one span as emitted by the tracer. -/
structure SpanData where
  name : String
  kind : Option String := none
  attrs : List (String × JValue) := []
  statusCode : Option SpanStatusCode := none
  statusMessage : Option String := none
  ended : Bool := false

/-- Span options passed to `startActiveSpan`. -/
structure SpanOptions where
  kind : Option String := none

/-- Embeds `getSpanKind` (world-local telemetry): resolves the SpanKind
by name, or `undefined` when the OpenTelemetry API is unavailable.
`otel` models whether the dynamic import of `@opentelemetry/api`
succeeded; it is the same condition for the tracer and the API. -/
def getSpanKind (otel : Bool) (field : String) : Option String :=
  if otel then some field else none

/-- Embeds `trace` (world-local telemetry, lines 73-105). The wrapped
computation `fn` receives the active span (absent when tracing is
disabled) and may update it; `trace` returns the computation's result
together with the spans emitted. When the API or tracer is missing it
returns `await fn()` directly and emits nothing. -/
def trace (otel : Bool) (spanName : String) (opts : SpanOptions)
    (fn : Option SpanData → MethodResult × Option SpanData) :
    MethodResult × List SpanData :=
  if !otel then
    ((fn none).1, [])
  else
    let span0 : SpanData := { name := spanName, kind := opts.kind }
    let (result, spanAfter) := fn (some span0)
    let span1 := spanAfter.getD span0
    let span2 :=
      match result with
      | .ok _ => { span1 with statusCode := some SpanStatusCode.OK }
      | .error e => { span1 with statusCode := some SpanStatusCode.ERROR, statusMessage := some e }
    (result, [{ span2 with ended := true }])

/-- Embeds `extractEventType` (instrumentObject.ts:25-33): reads
`eventType` from the second argument of an `events.create` call. -/
def extractEventType (args : List JValue) : Option String :=
  if 2 ≤ args.length then
    match args[1]? with
    | some (JValue.jobj fields) =>
      match fields.lookup "eventType" with
      | some (JValue.jstr s) => some s
      | _ => none
    | _ => none
  else none

/-- A property of the object passed to `instrumentObject`: a
non-function value or an async method. -/
inductive Entry
  | val (v : JValue)
  | method (f : List JValue → MethodResult)

/-- An instrumented property; methods additionally report the spans
they emitted. -/
inductive IEntry
  | val (v : JValue)
  | method (f : List JValue → MethodResult × List SpanData)

/-- The peer-service/RPC attributes the wrapper sets on the span
(instrumentObject.ts:66-71 with `WORLD_LOCAL_SERVICE`). -/
def worldLocalAttrs (spanName : String) : List (String × JValue) :=
  [("peer.service", .jstr "world-local"),
   ("rpc.system", .jstr "local"),
   ("rpc.service", .jstr "world-local"),
   ("rpc.method", .jstr spanName)]

/-- Embeds the wrapper `instrumentObject` installs around one method
(instrumentObject.ts:50-75): build the span name (including the event
type for `world.events.create`), then run the method inside `trace`,
setting the peer-service attributes on the span when one exists. -/
def wrapMethod (otel : Bool) (pfx methodName : String)
    (f : List JValue → MethodResult) (args : List JValue) :
    MethodResult × List SpanData :=
  let base := pfx ++ "." ++ methodName
  let spanName :=
    if pfx = "world.events" && methodName = "create" then
      match extractEventType args with
      | some et => base ++ " " ++ et
      | none => base
    else base
  trace otel spanName { kind := getSpanKind otel "INTERNAL" }
    (fun sp =>
      let sp' := sp.map (fun s => { s with attrs := s.attrs ++ worldLocalAttrs spanName })
      (f args, sp'))

/-- How `instrumentObject` transforms the property bound to key `k`. -/
def instEntry (otel : Bool) (pfx k : String) : Entry → IEntry
  | .val v => .val v
  | .method f => .method (wrapMethod otel pfx k f)

/-- Embeds `instrumentObject` (instrumentObject.ts:41-79): non-function
properties are copied unchanged; each method is wrapped with a tracing
span. -/
def instrumentObject (otel : Bool) (pfx : String)
    (o : List (String × Entry)) : List (String × IEntry) :=
  o.map (fun kv => (kv.1, instEntry otel pfx kv.1 kv.2))

lemma wrapMethod_disabled (pfx methodName : String)
    (f : List JValue → MethodResult) (args : List JValue) :
    wrapMethod false pfx methodName f args = (f args, []) := by
  unfold wrapMethod trace
  simp

lemma lookup_instrumentObject (otel : Bool) (pfx : String)
    (o : List (String × Entry)) (k : String) :
    (instrumentObject otel pfx o).lookup k =
      (o.lookup k).map (instEntry otel pfx k) := by
  induction o with
  | nil => simp [instrumentObject]
  | cons kv rest ih =>
    rcases kv with ⟨k', e⟩
    by_cases h : k = k'
    · subst h
      simp [instrumentObject, List.lookup]
    · have hb : (k == k') = false := by
        simp only [beq_eq_false_iff_ne, ne_eq]
        exact h
      simpa [instrumentObject, List.lookup, hb] using ih

end Telemetry

namespace Bundler

/-- The import graph `importParents`: each file maps to the list of
files it imports (its children). -/
abbrev ImportGraph := List (String × List String)

/-- Children of `node` (`importParents.get(current)`, empty when the
node has no entry). -/
def children (g : ImportGraph) (node : String) : List String :=
  (g.lookup node).getD []

/-- Every child recorded anywhere in the graph. -/
def allChildren (g : ImportGraph) : List String :=
  (g.map Prod.snd).flatten

lemma lookup_snd_mem {g : ImportGraph} {a : String} {l : List String}
    (h : g.lookup a = some l) : l ∈ g.map Prod.snd := by
  induction g with
  | nil => simp [List.lookup] at h
  | cons kv rest ih =>
    rcases kv with ⟨k, v⟩
    by_cases hk : a = k
    · subst hk
      simp [List.lookup] at h
      simp [h]
    · have hb : (a == k) = false := by
        simp only [beq_eq_false_iff_ne, ne_eq]
        exact hk
      simp only [List.lookup, hb] at h
      simp [ih h]

lemma children_mem_allChildren {g : ImportGraph} {a c : String}
    (h : c ∈ children g a) : c ∈ allChildren g := by
  unfold children at h
  cases hl : g.lookup a with
  | none => simp [hl] at h
  | some l =>
    rw [hl] at h
    simp only [Option.getD_some] at h
    exact List.mem_flatten.mpr ⟨l, lookup_snd_mem hl, h⟩

/-- Embeds the inner `for (const child of children)` loop of
`parentHasChild` (part_004:39-44): returns `none` when `childToFind`
is among the children (the function returns `true`), otherwise the
queue with all children pushed. -/
def pushChildren (childToFind : String) (queue : List String) :
    List String → Option (List String)
  | [] => some queue
  | c :: cs =>
    if c = childToFind then none
    else pushChildren childToFind (queue ++ [c]) cs

lemma pushChildren_none {childToFind : String} {queue cs : List String}
    (h : pushChildren childToFind queue cs = none) : childToFind ∈ cs := by
  induction cs generalizing queue with
  | nil => simp [pushChildren] at h
  | cons c cs ih =>
    by_cases hc : c = childToFind
    · subst hc
      simp
    · simp only [pushChildren, hc, if_false] at h
      exact List.mem_cons_of_mem _ (ih h)

lemma pushChildren_some {childToFind : String} {queue cs queue' : List String}
    (h : pushChildren childToFind queue cs = some queue') :
    queue' = queue ++ cs ∧ childToFind ∉ cs := by
  induction cs generalizing queue with
  | nil =>
    simp only [pushChildren, Option.some.injEq] at h
    simp [h.symm]
  | cons c cs ih =>
    by_cases hc : c = childToFind
    · simp [pushChildren, hc] at h
    · simp only [pushChildren, hc, if_false] at h
      obtain ⟨h1, h2⟩ := ih h
      refine ⟨by simp [h1], ?_⟩
      intro hmem
      rcases List.mem_cons.mp hmem with rfl | hmem
      · exact hc rfl
      · exact h2 hmem

/-- Count of universe nodes not yet visited: the decreasing part of the
BFS termination measure. -/
def unvisited (univlist visited : List String) : Nat :=
  (univlist.filter (fun x => decide (x ∉ visited))).length

lemma filter_length_le {α : Type} {p q : α → Bool}
    (hw : ∀ x, q x = true → p x = true) (l : List α) :
    (l.filter q).length ≤ (l.filter p).length := by
  induction l with
  | nil => simp
  | cons x xs ih =>
    cases hq : q x
    · cases hp : p x <;> simp [List.filter_cons, hq, hp] <;> omega
    · have hp := hw x hq
      simp only [List.filter_cons, hq, hp, if_true, List.length_cons]
      omega

lemma filter_length_lt {α : Type} {p q : α → Bool}
    (hw : ∀ x, q x = true → p x = true) {a : α}
    (hpa : p a = true) (hqa : q a = false) :
    ∀ l : List α, a ∈ l → (l.filter q).length < (l.filter p).length := by
  intro l
  induction l with
  | nil => intro ha; cases ha
  | cons x xs ih =>
    intro ha
    rcases List.mem_cons.mp ha with rfl | hmem
    · have hle := filter_length_le hw xs
      simp [List.filter_cons, hpa, hqa]
      omega
    · have hlt := ih hmem
      cases hq : q x
      · cases hp : p x
        · simpa [List.filter_cons, hq, hp] using hlt
        · simp [List.filter_cons, hq, hp]
          omega
      · have hp := hw x hq
        simp [List.filter_cons, hq, hp]
        omega

lemma unvisited_cons_lt {univlist visited : List String} {cur : String}
    (hu : cur ∈ univlist) (hv : cur ∉ visited) :
    unvisited univlist (cur :: visited) < unvisited univlist visited := by
  unfold unvisited
  refine filter_length_lt ?_ ?_ ?_ _ hu
  · intro x hx
    simp only [decide_eq_true_eq] at hx ⊢
    intro hmem
    exact hx (List.mem_cons_of_mem _ hmem)
  · simpa using hv
  · simp

/-- Embeds the BFS loop of `parentHasChild` (part_004:22-48). The
`univlist`/`hg`/`hq` arguments carry the finiteness facts that make the
`visited`-set argument of the source a termination proof: every node
that can ever enter the queue lies in `univlist`. -/
def bfsAux (g : ImportGraph) (childToFind : String) (univlist : List String)
    (hg : ∀ a : String, ∀ c ∈ children g a, c ∈ univlist)
    (visited queue : List String)
    (hq : ∀ x ∈ queue, x ∈ univlist) : Bool :=
  match queue with
  | [] => false
  | current :: rest =>
    if hvis : current ∈ visited then
      bfsAux g childToFind univlist hg visited rest
        (fun x hx => hq x (List.mem_cons_of_mem _ hx))
    else
      match hpc : pushChildren childToFind rest (children g current) with
      | none => true
      | some queue' =>
        have hq' : ∀ x ∈ queue', x ∈ univlist := by
          obtain ⟨rfl, -⟩ := pushChildren_some hpc
          intro x hx
          rcases List.mem_append.mp hx with h1 | h2
          · exact hq x (List.mem_cons_of_mem _ h1)
          · exact hg current x h2
        bfsAux g childToFind univlist hg (current :: visited) queue' hq'
  termination_by (unvisited univlist visited, queue.length)
  decreasing_by
  · simp_wf
    apply Prod.Lex.right
    simp
  · simp_wf
    apply Prod.Lex.left
    exact unvisited_cons_lt (hq current (List.mem_cons_self _ _)) hvis

/-- Embeds `parentHasChild` (part_004:22-48): breadth-first search of
the import graph from `parent` for `childToFind`, with a visited set
preventing revisits on cyclic graphs. -/
def parentHasChild (g : ImportGraph) (parent childToFind : String) : Bool :=
  bfsAux g childToFind (parent :: allChildren g)
    (fun _ c hc => List.mem_cons_of_mem _ (children_mem_allChildren hc))
    [] [parent]
    (fun x hx => by
      rcases List.mem_cons.mp hx with rfl | h
      · exact List.mem_cons_self _ _
      · cases h)

/-- Reachability in the import graph via one or more import edges. -/
inductive Reaches (g : ImportGraph) : String → String → Prop
  | direct {a b : String} (h : b ∈ children g a) : Reaches g a b
  | step {a c b : String} (h : c ∈ children g a) (r : Reaches g c b) :
      Reaches g a b

lemma Reaches.append_child {g : ImportGraph} {a b c : String}
    (r : Reaches g a b) (h : c ∈ children g b) : Reaches g a c := by
  induction r with
  | direct h' => exact .step h' (.direct h)
  | step h' r ih => exact .step h' (ih h)

lemma bfsAux_nil (g : ImportGraph) (childToFind : String) (univlist : List String)
    (hg : ∀ a : String, ∀ c ∈ children g a, c ∈ univlist)
    (visited : List String) (hq : ∀ x ∈ ([] : List String), x ∈ univlist) :
    bfsAux g childToFind univlist hg visited [] hq = false := by
  rw [bfsAux]

lemma bfsAux_cons_visited (g : ImportGraph) (childToFind : String)
    (univlist : List String)
    (hg : ∀ a : String, ∀ c ∈ children g a, c ∈ univlist)
    (visited : List String) (current : String) (rest : List String)
    (hq : ∀ x ∈ current :: rest, x ∈ univlist)
    (hq₂ : ∀ x ∈ rest, x ∈ univlist)
    (hvis : current ∈ visited) :
    bfsAux g childToFind univlist hg visited (current :: rest) hq =
      bfsAux g childToFind univlist hg visited rest hq₂ := by
  rw [bfsAux, dif_pos hvis]

lemma bfsAux_cons_found (g : ImportGraph) (childToFind : String)
    (univlist : List String)
    (hg : ∀ a : String, ∀ c ∈ children g a, c ∈ univlist)
    (visited : List String) (current : String) (rest : List String)
    (hq : ∀ x ∈ current :: rest, x ∈ univlist)
    (hvis : current ∉ visited)
    (hpc : pushChildren childToFind rest (children g current) = none) :
    bfsAux g childToFind univlist hg visited (current :: rest) hq = true := by
  rw [bfsAux, dif_neg hvis]
  split
  · rfl
  · rename_i queue' heq
    rw [hpc] at heq
    cases heq

lemma bfsAux_cons_new (g : ImportGraph) (childToFind : String)
    (univlist : List String)
    (hg : ∀ a : String, ∀ c ∈ children g a, c ∈ univlist)
    (visited : List String) (current : String) (rest : List String)
    (hq : ∀ x ∈ current :: rest, x ∈ univlist)
    (hvis : current ∉ visited)
    (queue' : List String) (hq' : ∀ x ∈ queue', x ∈ univlist)
    (hpc : pushChildren childToFind rest (children g current) = some queue') :
    bfsAux g childToFind univlist hg visited (current :: rest) hq =
      bfsAux g childToFind univlist hg (current :: visited) queue' hq' := by
  rw [bfsAux, dif_neg hvis]
  split
  · rename_i heq
    rw [hpc] at heq
    cases heq
  · rename_i q2 heq
    rw [hpc] at heq
    cases heq
    rfl

lemma bfsAux_sound (g : ImportGraph) (childToFind root : String)
    (univlist : List String)
    (hg : ∀ a : String, ∀ c ∈ children g a, c ∈ univlist) :
    ∀ (visited queue : List String) (hq : ∀ x ∈ queue, x ∈ univlist),
      (∀ v ∈ queue, v = root ∨ Reaches g root v) →
      bfsAux g childToFind univlist hg visited queue hq = true →
      Reaches g root childToFind := by
  intro visited queue hq
  induction visited, queue, hq using bfsAux.induct g childToFind univlist hg with
  | case1 visited hq _h =>
    intro _ htrue
    rw [bfsAux_nil] at htrue
    cases htrue
  | case2 visited current rest hq hvis _h ih =>
    intro hroot htrue
    rw [bfsAux_cons_visited g childToFind univlist hg visited current rest hq
      (fun x hx => hq x (List.mem_cons_of_mem _ hx)) hvis] at htrue
    exact ih (fun v hv => hroot v (List.mem_cons_of_mem _ hv)) htrue
  | case3 visited current rest hq hvis hpc _h =>
    intro hroot _htrue
    have htgt : childToFind ∈ children g current := pushChildren_none hpc
    rcases hroot current (List.mem_cons_self _ _) with rfl | hr
    · exact .direct htgt
    · exact hr.append_child htgt
  | case4 visited current rest hq hvis queue' hpc hq' _h ih =>
    intro hroot htrue
    rw [bfsAux_cons_new g childToFind univlist hg visited current rest hq hvis
      queue' hq' hpc] at htrue
    refine ih ?_ htrue
    obtain ⟨rfl, -⟩ := pushChildren_some hpc
    intro v hv
    rcases List.mem_append.mp hv with h1 | h2
    · exact hroot v (List.mem_cons_of_mem _ h1)
    · right
      rcases hroot current (List.mem_cons_self _ _) with rfl | hr
      · exact .direct h2
      · exact hr.append_child h2

lemma bfsAux_complete (g : ImportGraph) (childToFind : String)
    (univlist : List String)
    (hg : ∀ a : String, ∀ c ∈ children g a, c ∈ univlist) :
    ∀ (visited queue : List String) (hq : ∀ x ∈ queue, x ∈ univlist),
      bfsAux g childToFind univlist hg visited queue hq = false →
      (∀ v ∈ visited, ∀ c ∈ children g v,
        c ≠ childToFind ∧ (c ∈ visited ∨ c ∈ queue)) →
      ∀ v, (v ∈ visited ∨ v ∈ queue) → ¬ Reaches g v childToFind := by
  intro visited queue hq
  induction visited, queue, hq using bfsAux.induct g childToFind univlist hg with
  | case1 visited hq _h =>
    intro _ hinv v hv r
    have key : ∀ a b, Reaches g a b → b = childToFind → a ∈ visited → False := by
      intro a b hr
      induction hr with
      | direct hc =>
        intro hb ha
        exact (hinv _ ha _ hc).1 hb
      | step hc hr ih =>
        intro hb ha
        rcases (hinv _ ha _ hc).2 with hvz | hqz
        · exact ih hb hvz
        · cases hqz
    rcases hv with hv | hv
    · exact key v childToFind r rfl hv
    · cases hv
  | case2 visited current rest hq hvis _h ih =>
    intro hfalse hinv
    rw [bfsAux_cons_visited g childToFind univlist hg visited current rest hq
      (fun x hx => hq x (List.mem_cons_of_mem _ hx)) hvis] at hfalse
    have hinv' : ∀ v ∈ visited, ∀ c ∈ children g v,
        c ≠ childToFind ∧ (c ∈ visited ∨ c ∈ rest) := by
      intro v hv c hc
      obtain ⟨h1, h2⟩ := hinv v hv c hc
      refine ⟨h1, ?_⟩
      rcases h2 with h2 | h2
      · exact Or.inl h2
      · rcases List.mem_cons.mp h2 with rfl | h2
        · exact Or.inl hvis
        · exact Or.inr h2
    have hres := ih hfalse hinv'
    intro v hv
    rcases hv with hv | hv
    · exact hres v (Or.inl hv)
    · rcases List.mem_cons.mp hv with rfl | hv
      · exact hres v (Or.inl hvis)
      · exact hres v (Or.inr hv)
  | case3 visited current rest hq hvis hpc _h =>
    intro hfalse
    rw [bfsAux_cons_found g childToFind univlist hg visited current rest hq
      hvis hpc] at hfalse
    cases hfalse
  | case4 visited current rest hq hvis queue' hpc hq' _h ih =>
    intro hfalse hinv
    rw [bfsAux_cons_new g childToFind univlist hg visited current rest hq hvis
      queue' hq' hpc] at hfalse
    obtain ⟨rfl, htgt⟩ := pushChildren_some hpc
    have hinv' : ∀ v ∈ current :: visited, ∀ c ∈ children g v,
        c ≠ childToFind ∧
          (c ∈ current :: visited ∨ c ∈ rest ++ children g current) := by
      intro v hv c hc
      rcases List.mem_cons.mp hv with rfl | hv
      · refine ⟨?_, Or.inr (List.mem_append.mpr (Or.inr hc))⟩
        intro hEq
        exact htgt (hEq ▸ hc)
      · obtain ⟨h1, h2⟩ := hinv v hv c hc
        refine ⟨h1, ?_⟩
        rcases h2 with h2 | h2
        · exact Or.inl (List.mem_cons_of_mem _ h2)
        · rcases List.mem_cons.mp h2 with rfl | h2
          · exact Or.inl (List.mem_cons_self _ _)
          · exact Or.inr (List.mem_append.mpr (Or.inl h2))
    have hres := ih hfalse hinv'
    intro v hv
    rcases hv with hv | hv
    · exact hres v (Or.inl (List.mem_cons_of_mem _ hv))
    · rcases List.mem_cons.mp hv with rfl | hv
      · exact hres v (Or.inl (List.mem_cons_self _ _))
      · exact hres v (Or.inr (List.mem_append.mpr (Or.inl hv)))

end Bundler

/-- C1: at every observed state (any event log), a step's current
attempt number equals the number of `step_started` events durably
appended for its `stepId`; and a worker that hydrates only after the
`step_started` append for the new attempt is acknowledged observes
exactly the advanced count. -/
theorem attempt_equals_step_started_count (E : List WorldModel.Event) (sid : String) :
    WorldModel.stepAttempt (WorldModel.replay E) sid = WorldModel.countStarted E sid ∧
    WorldModel.workerHydrationView E sid = WorldModel.countStarted E sid + 1 := by
  refine ⟨WorldModel.stepAttempt_replay E sid, ?_⟩
  unfold WorldModel.workerHydrationView
  rw [WorldModel.stepAttempt_replay, WorldModel.countStarted_append_started]

/-- C2: the conditional `steps.update` accepts at most one completion
per attempt: when two writers race to complete a `running` step, the
first conditional write succeeds and the second fails with `Conflict`. -/
theorem conditional_update_one_winner (s : WorldModel.Step)
    (p₁ p₂ : WorldModel.StepStatus)
    (hrun : s.status = WorldModel.StepStatus.running)
    (hp₁ : p₁ ≠ WorldModel.StepStatus.running) :
    WorldModel.stepsUpdate s WorldModel.StepStatus.running p₁ =
      Except.ok { s with status := p₁ } ∧
    WorldModel.stepsUpdate { s with status := p₁ }
        WorldModel.StepStatus.running p₂ =
      Except.error WorldModel.WorldError.Conflict := by
  constructor
  · simp [WorldModel.stepsUpdate, hrun]
  · simp [WorldModel.stepsUpdate, hp₁]

/-- Race of two completion writers on a concrete running step. -/
def demoRunningStep : WorldModel.Step :=
  { stepId := "s1", attempt := 1, maxRetries := 3
    status := .running, retryAfter := none }

/-- Witness for C2 at a concrete running step. -/
theorem conditional_update_one_winner_witness :
    WorldModel.stepsUpdate demoRunningStep WorldModel.StepStatus.running
        WorldModel.StepStatus.succeeded =
      Except.ok { demoRunningStep with status := WorldModel.StepStatus.succeeded } ∧
    WorldModel.stepsUpdate
        { demoRunningStep with status := WorldModel.StepStatus.succeeded }
        WorldModel.StepStatus.running WorldModel.StepStatus.succeeded =
      Except.error WorldModel.WorldError.Conflict :=
  conditional_update_one_winner demoRunningStep .succeeded .succeeded rfl
    (by decide)

/-- C3: replay is deterministic — any two derivations of the replay
relation on the same ordered event sequence produce identical derived
run/step/hook state, so derived state is a pure function of the log. -/
theorem replay_deterministic (E : List WorldModel.Event)
    (s₁ s₂ : WorldModel.RunState)
    (h₁ : WorldModel.Replay E s₁) (h₂ : WorldModel.Replay E s₂) : s₁ = s₂ :=
  WorldModel.replay_functional h₁ h₂

/-- Witness for C3 on a concrete one-event log. -/
theorem replay_deterministic_witness :
    WorldModel.applyEvent WorldModel.initialState { eventType := .run_started } =
      WorldModel.applyEvent WorldModel.initialState { eventType := .run_started } :=
  replay_deterministic [{ eventType := .run_started }] _ _
    (WorldModel.Replay.snoc _ WorldModel.Replay.nil)
    (WorldModel.Replay.snoc _ WorldModel.Replay.nil)

/-- C4: server-side retry-timing validation — invoking a
`retry_scheduled` step before its `retryAfter` fails with `TooEarly`
(HTTP 425), and invoking it at or after `retryAfter` proceeds. -/
theorem retryAfter_too_early (s : WorldModel.Step) (t now : Nat)
    (hsched : s.status = WorldModel.StepStatus.retry_scheduled)
    (hra : s.retryAfter = some t) :
    (now < t →
      WorldModel.validateInvoke s now =
        Except.error WorldModel.WorldError.TooEarly) ∧
    (t ≤ now → WorldModel.validateInvoke s now = Except.ok ()) := by
  have hterm : WorldModel.isTerminalStep s = false := by
    simp [WorldModel.isTerminalStep, hsched]
  constructor
  · intro h
    simp [WorldModel.validateInvoke, hterm, hra, h]
  · intro h
    have hnl : ¬ now < t := by omega
    simp [WorldModel.validateInvoke, hterm, hra, hnl]

/-- A retry-scheduled step with a concrete backoff deadline. -/
def demoRetryStep : WorldModel.Step :=
  { stepId := "s1", attempt := 2, maxRetries := 3
    status := .retry_scheduled, retryAfter := some 10 }

/-- Witness for C4: invoking before the deadline is TooEarly, at/after
it proceeds. -/
theorem retryAfter_too_early_witness :
    WorldModel.validateInvoke demoRetryStep 5 =
      Except.error WorldModel.WorldError.TooEarly ∧
    WorldModel.validateInvoke demoRetryStep 12 = Except.ok () :=
  ⟨(retryAfter_too_early demoRetryStep 10 5 rfl rfl).1 (by decide),
   (retryAfter_too_early demoRetryStep 10 12 rfl rfl).2 (by decide)⟩

/-- C5: invoking a step already in a terminal state is rejected with
`Conflict` (HTTP 409), never with the `Gone` (HTTP 410) semantic. -/
theorem terminal_invoke_conflict (s : WorldModel.Step) (now : Nat)
    (hterm : WorldModel.isTerminalStep s = true) :
    WorldModel.validateInvoke s now =
      Except.error WorldModel.WorldError.Conflict ∧
    WorldModel.validateInvoke s now ≠
      Except.error WorldModel.WorldError.Gone ∧
    WorldModel.httpStatus WorldModel.WorldError.Conflict = 409 ∧
    WorldModel.httpStatus WorldModel.WorldError.Gone = 410 := by
  refine ⟨?_, ?_, rfl, rfl⟩
  · simp [WorldModel.validateInvoke, hterm]
  · simp [WorldModel.validateInvoke, hterm]

/-- A step that already succeeded (terminal). -/
def demoDoneStep : WorldModel.Step :=
  { stepId := "s1", attempt := 1, maxRetries := 3
    status := .succeeded, retryAfter := none }

/-- Witness for C5 at a concrete succeeded step. -/
theorem terminal_invoke_conflict_witness :
    WorldModel.validateInvoke demoDoneStep 0 =
      Except.error WorldModel.WorldError.Conflict ∧
    WorldModel.validateInvoke demoDoneStep 0 ≠
      Except.error WorldModel.WorldError.Gone ∧
    WorldModel.httpStatus WorldModel.WorldError.Conflict = 409 ∧
    WorldModel.httpStatus WorldModel.WorldError.Gone = 410 :=
  terminal_invoke_conflict demoDoneStep 0 rfl

/-- C6: on event creation (the v2 contract path), the event types in
the fixed allow-list always request `remoteRefBehavior 'resolve'`
regardless of the caller's `resolveData` preference, and every other
event type requests `'lazy'`. -/
theorem create_event_remote_ref_policy (defaultRD : EventsApi.ResolveData)
    (id : Option String) (data : EventsApi.AnyEventRequest)
    (params : EventsApi.CreateEventParams) (wire : EventsApi.EventResultWire)
    (hv1 : params.v1Compat.getD false = false) :
    ∃ endpoint b res,
      EventsApi.createWorkflowRunEvent defaultRD id data params wire =
        EventsApi.CreateOutcome.v2 endpoint b res ∧
      (b = EventsApi.RemoteRefBehavior.resolve ↔
        data.eventType ∈ EventsApi.eventsNeedingResolve) ∧
      (b = EventsApi.RemoteRefBehavior.lazy ↔
        data.eventType ∉ EventsApi.eventsNeedingResolve) ∧
      ∀ (rd : Option EventsApi.ResolveData) (defaultRD' : EventsApi.ResolveData),
        ∃ res',
          EventsApi.createWorkflowRunEvent defaultRD' id data
              { params with resolveData := rd } wire =
            EventsApi.CreateOutcome.v2 endpoint b res' := by
  by_cases hmem : data.eventType ∈ EventsApi.eventsNeedingResolve
  · refine ⟨"/v2/runs/" ++ (match id with | none => "null" | some i => i) ++ "/events",
      EventsApi.RemoteRefBehavior.resolve,
      EventsApi.mkResult wire (params.resolveData.getD defaultRD), ?_, ?_, ?_, ?_⟩
    · simp [EventsApi.createWorkflowRunEvent, EventsApi.mkResult, hv1, hmem]
    · simp [hmem]
    · simp [hmem]
    · intro rd defaultRD'
      refine ⟨EventsApi.mkResult wire (rd.getD defaultRD'), ?_⟩
      simp [EventsApi.createWorkflowRunEvent, EventsApi.mkResult, hv1, hmem]
  · refine ⟨"/v2/runs/" ++ (match id with | none => "null" | some i => i) ++ "/events",
      EventsApi.RemoteRefBehavior.lazy,
      EventsApi.mkResult wire (params.resolveData.getD defaultRD), ?_, ?_, ?_, ?_⟩
    · simp [EventsApi.createWorkflowRunEvent, EventsApi.mkResult, hv1, hmem]
    · simp [hmem]
    · simp [hmem]
    · intro rd defaultRD'
      refine ⟨EventsApi.mkResult wire (rd.getD defaultRD'), ?_⟩
      simp [EventsApi.createWorkflowRunEvent, EventsApi.mkResult, hv1, hmem]

/-- A concrete event object as the storage backend would return it. -/
def demoEventObj : EventsApi.EventObj :=
  { eventId := "e1", runId := "r1", eventType := "step_started"
    correlationId := none, eventData := some (.jstr "payload")
    eventDataRef := none, createdAt := 0, specVersion := 2 }

/-- A concrete v2 `events.create` wire response. -/
def demoWire : EventsApi.EventResultWire :=
  { event := demoEventObj }

/-- Witness for C6 at a concrete `step_started` creation. -/
theorem create_event_remote_ref_policy_witness :
    ∃ endpoint b res,
      EventsApi.createWorkflowRunEvent EventsApi.ResolveData.all (some "r1")
          { eventType := "step_started" } {} demoWire =
        EventsApi.CreateOutcome.v2 endpoint b res ∧
      (b = EventsApi.RemoteRefBehavior.resolve ↔
        ("step_started" : String) ∈ EventsApi.eventsNeedingResolve) ∧
      (b = EventsApi.RemoteRefBehavior.lazy ↔
        ("step_started" : String) ∉ EventsApi.eventsNeedingResolve) ∧
      ∀ (rd : Option EventsApi.ResolveData) (defaultRD' : EventsApi.ResolveData),
        ∃ res',
          EventsApi.createWorkflowRunEvent defaultRD' (some "r1")
              { eventType := "step_started" }
              { ({} : EventsApi.CreateEventParams) with resolveData := rd }
              demoWire =
            EventsApi.CreateOutcome.v2 endpoint b res' :=
  create_event_remote_ref_policy EventsApi.ResolveData.all (some "r1")
    { eventType := "step_started" } {} demoWire rfl

/-- C7: a lazy-mode event creation (`resolveData: 'none'`, event type
outside the allow-list, e.g. `step_completed`) and a listing with
`resolveData: 'none'` return events with the `eventData` field removed
and every other field unchanged, keeping the payload an unresolved
reference; hydrating a dehydrated reference returns the original value
(codec modelled from the spec §4.2). -/
theorem lazy_mode_reference_and_hydrate :
    (∀ (defaultRD : EventsApi.ResolveData) (id : Option String)
        (data : EventsApi.AnyEventRequest) (params : EventsApi.CreateEventParams)
        (wire : EventsApi.EventResultWire),
      params.resolveData = some EventsApi.ResolveData.nothing →
      params.v1Compat.getD false = false →
      data.eventType = "step_completed" →
      ∃ endpoint,
        EventsApi.createWorkflowRunEvent defaultRD id data params wire =
          EventsApi.CreateOutcome.v2 endpoint EventsApi.RemoteRefBehavior.lazy
            { event := some { wire.event with eventData := none }
              run := wire.run
              step := wire.step
              hook := wire.hook }) ∧
    (∀ (defaultRD : EventsApi.ResolveData) (params : EventsApi.ListEventsParamsM)
        (wire : List EventsApi.EventObj) (r : String),
      params.resolveData = some EventsApi.ResolveData.nothing →
      params.target = EventsApi.EventsTarget.byRun r →
      r ≠ "" →
      ∃ req, EventsApi.getWorkflowRunEvents defaultRD params wire =
        Except.ok (req, wire.map (fun e => { e with eventData := none }))) ∧
    (∀ (threshold : Nat) (store : List JValue) (v : JValue)
        (size : JValue → Nat),
      HydrationCodec.hydrate (HydrationCodec.dehydrate size threshold store v).2
        (HydrationCodec.dehydrate size threshold store v).1 = some v) := by
  refine ⟨?_, ?_, ?_⟩
  · intro defaultRD id data params wire hrd hv1 het
    refine ⟨"/v2/runs/" ++ (match id with | none => "null" | some i => i) ++
      "/events", ?_⟩
    have hmem : data.eventType ∉ EventsApi.eventsNeedingResolve := by
      rw [het]
      decide
    simp [EventsApi.createWorkflowRunEvent, hv1, hmem, hrd,
      EventsApi.filterEventData]
  · intro defaultRD params wire r hrd htarget hr
    have htruthy : EventsApi.strTruthy (some r) = true := by
      simp [EventsApi.strTruthy, hr]
    refine ⟨{ endpoint := "/v2/runs/" ++ r ++ "/events"
              limit := params.pagination.bind EventsApi.Pagination.limit
              cursor := params.pagination.bind EventsApi.Pagination.cursor
              sortOrder := params.pagination.bind EventsApi.Pagination.sortOrder
              correlationId := none
              remoteRefBehavior := EventsApi.RemoteRefBehavior.lazy }, ?_⟩
    simp [EventsApi.getWorkflowRunEvents, htarget, hrd, htruthy,
      EventsApi.strTruthy, EventsApi.filterEventData]
    exact hr
  · intro threshold store v size
    exact HydrationCodec.hydrate_dehydrate size threshold store v

/-- A concrete `step_completed` wire response for the lazy-mode
witness. -/
def demoCompletedWire : EventsApi.EventResultWire :=
  { event := { demoEventObj with eventType := "step_completed" } }

/-- Witness for C7 at concrete lazy-mode calls and a concrete
dehydrated value. -/
theorem lazy_mode_reference_and_hydrate_witness :
    (∃ endpoint,
      EventsApi.createWorkflowRunEvent EventsApi.ResolveData.all (some "r1")
          { eventType := "step_completed" }
          { resolveData := some EventsApi.ResolveData.nothing }
          demoCompletedWire =
        EventsApi.CreateOutcome.v2 endpoint EventsApi.RemoteRefBehavior.lazy
          { event := some { demoCompletedWire.event with eventData := none }
            run := demoCompletedWire.run
            step := demoCompletedWire.step
            hook := demoCompletedWire.hook }) ∧
    (∃ req, EventsApi.getWorkflowRunEvents EventsApi.ResolveData.all
        { target := EventsApi.EventsTarget.byRun "r1"
          resolveData := some EventsApi.ResolveData.nothing }
        [demoEventObj] =
      Except.ok (req, [demoEventObj].map (fun e => { e with eventData := none }))) ∧
    HydrationCodec.hydrate
        (HydrationCodec.dehydrate (fun _ => 5) 3 [] (JValue.jstr "big")).2
        (HydrationCodec.dehydrate (fun _ => 5) 3 [] (JValue.jstr "big")).1 =
      some (JValue.jstr "big") :=
  ⟨lazy_mode_reference_and_hydrate.1 EventsApi.ResolveData.all (some "r1")
      { eventType := "step_completed" }
      { resolveData := some EventsApi.ResolveData.nothing }
      demoCompletedWire rfl rfl rfl,
   lazy_mode_reference_and_hydrate.2.1 EventsApi.ResolveData.all
      { target := EventsApi.EventsTarget.byRun "r1"
        resolveData := some EventsApi.ResolveData.nothing }
      [demoEventObj] "r1" rfl rfl (by decide),
   lazy_mode_reference_and_hydrate.2.2 3 [] (JValue.jstr "big") (fun _ => 5)⟩

/-- C8: tracing is observationally a no-op when OpenTelemetry is
unavailable — `trace` returns exactly the result of `fn()` (resolved
value or thrown error alike), every method wrapped by
`instrumentObject` returns the same result as the uninstrumented
method on the same arguments and emits no spans, and non-function
properties are copied unchanged. -/
theorem tracing_disabled_noop :
    (∀ (spanName : String) (opts : Telemetry.SpanOptions)
        (fn : Option Telemetry.SpanData →
          Telemetry.MethodResult × Option Telemetry.SpanData),
      (Telemetry.trace false spanName opts fn).1 = (fn none).1) ∧
    (∀ (pfx : String) (o : List (String × Telemetry.Entry)) (k : String)
        (f : List JValue → Telemetry.MethodResult),
      o.lookup k = some (Telemetry.Entry.method f) →
      ∃ wrapped,
        (Telemetry.instrumentObject false pfx o).lookup k =
          some (Telemetry.IEntry.method wrapped) ∧
        ∀ args, wrapped args = (f args, [])) ∧
    (∀ (pfx : String) (o : List (String × Telemetry.Entry)) (k : String)
        (v : JValue),
      o.lookup k = some (Telemetry.Entry.val v) →
      (Telemetry.instrumentObject false pfx o).lookup k =
        some (Telemetry.IEntry.val v)) := by
  refine ⟨?_, ?_, ?_⟩
  · intro spanName opts fn
    simp [Telemetry.trace]
  · intro pfx o k f hf
    refine ⟨Telemetry.wrapMethod false pfx k f, ?_, ?_⟩
    · rw [Telemetry.lookup_instrumentObject, hf]
      rfl
    · intro args
      exact Telemetry.wrapMethod_disabled pfx k f args
  · intro pfx o k v hv
    rw [Telemetry.lookup_instrumentObject, hv]
    rfl

/-- A method that always throws, to exercise error propagation. -/
def demoThrowingMethod : List JValue → Telemetry.MethodResult :=
  fun _ => Except.error "boom"

/-- A concrete storage-like object with one plain value and one
method. -/
def demoObj : List (String × Telemetry.Entry) :=
  [("x", Telemetry.Entry.val JValue.jnull),
   ("create", Telemetry.Entry.method demoThrowingMethod)]

/-- Witness for C8 on a concrete object whose method throws. -/
theorem tracing_disabled_noop_witness :
    (∃ wrapped,
      (Telemetry.instrumentObject false "world.events" demoObj).lookup "create" =
        some (Telemetry.IEntry.method wrapped) ∧
      ∀ args, wrapped args = (demoThrowingMethod args, [])) ∧
    (Telemetry.instrumentObject false "world.events" demoObj).lookup "x" =
      some (Telemetry.IEntry.val JValue.jnull) :=
  ⟨tracing_disabled_noop.2.1 "world.events" demoObj "create"
      demoThrowingMethod rfl,
   tracing_disabled_noop.2.2 "world.events" demoObj "x" JValue.jnull rfl⟩

/-- C9: `getWorkflowRunEvents` throws
"Either runId or correlationId must be provided" — before issuing any
storage request — whenever the caller supplies neither a non-empty
`runId` nor a non-empty `correlationId`. -/
theorem missing_ids_rejected (defaultRD : EventsApi.ResolveData)
    (params : EventsApi.ListEventsParamsM) (wire : List EventsApi.EventObj)
    (hempty : match params.target with
      | EventsApi.EventsTarget.byRun r => r = ""
      | EventsApi.EventsTarget.byCorrelation c => c = "") :
    EventsApi.getWorkflowRunEvents defaultRD params wire =
      Except.error "Either runId or correlationId must be provided" := by
  rcases hT : params.target with r | c
  · rw [hT] at hempty
    simp only at hempty
    simp [EventsApi.getWorkflowRunEvents, hT, EventsApi.strTruthy, hempty]
  · rw [hT] at hempty
    simp only at hempty
    simp [EventsApi.getWorkflowRunEvents, hT, EventsApi.strTruthy, hempty]

/-- Witness for C9 with an empty `runId`. -/
theorem missing_ids_rejected_witness :
    EventsApi.getWorkflowRunEvents EventsApi.ResolveData.all
        { target := EventsApi.EventsTarget.byRun "" } [] =
      Except.error "Either runId or correlationId must be provided" :=
  missing_ids_rejected EventsApi.ResolveData.all
    { target := EventsApi.EventsTarget.byRun "" } [] rfl

/-- C10: `parentHasChild` is total on every finite import graph,
including cyclic ones (it is a Lean function, so it terminates by
construction — the visited set bounds the search), and it returns
`true` exactly when `childToFind` is reachable from `parent` via one
or more import edges. -/
theorem parentHasChild_iff_reachable (g : Bundler.ImportGraph)
    (parent childToFind : String) :
    Bundler.parentHasChild g parent childToFind = true ↔
      Bundler.Reaches g parent childToFind := by
  constructor
  · intro h
    refine Bundler.bfsAux_sound g childToFind parent
      (parent :: Bundler.allChildren g)
      (fun _ c hc => List.mem_cons_of_mem _ (Bundler.children_mem_allChildren hc))
      [] [parent] ?_ ?_ h
    · intro x hx
      rcases List.mem_cons.mp hx with rfl | h0
      · exact List.mem_cons_self _ _
      · cases h0
    · intro v hv
      rcases List.mem_cons.mp hv with rfl | h0
      · exact Or.inl rfl
      · cases h0
  · intro r
    cases hb : Bundler.parentHasChild g parent childToFind with
    | true => rfl
    | false =>
      exfalso
      refine Bundler.bfsAux_complete g childToFind
        (parent :: Bundler.allChildren g)
        (fun _ c hc => List.mem_cons_of_mem _ (Bundler.children_mem_allChildren hc))
        [] [parent] ?_ hb ?_ parent (Or.inr (List.mem_cons_self _ _)) r
      · intro x hx
        rcases List.mem_cons.mp hx with rfl | h0
        · exact List.mem_cons_self _ _
        · cases h0
      · intro v hv
        cases hv
